import Mathlib

/-!
# The `linux-arm64/list.js` manifest of solc-bin

`list.js` is a static table: an array literal `soljsonSources`, an object
literal `soljsonReleases`, and a guarded assignment to `module.exports`.
The array is embedded as a list of strings, the object literal as the list
of `key: value` entries in the order written, evaluated into an object by
JavaScript's rule for object literals (a repeated key overwrites the value
stored earlier and keeps the position of its first occurrence).
-/

namespace SolcBin

/-! ## The array literal -/

/-- The array literal bound to `soljsonSources` (lines 2 to 6 of `list.js`). -/
def soljsonSources : List String :=
  [ "solc-linux-arm64-v0.8.33+commit.64118f21",
    "solc-linux-arm64-v0.8.32+commit.ebbd65e5",
    "solc-linux-arm64-v0.8.31+commit.fd3a2265" ]

/-! ## The object literal -/

/-- An object whose property values are strings: the own properties, in
insertion order. -/
abbrev JSObject := List (String × String)

/-- The `key: value` entries of the object literal bound to
`soljsonReleases`, in the order written (lines 7 to 11 of `list.js`). -/
def soljsonReleasesLiteral : List (String × String) :=
  [ ("0.8.33", "solc-linux-arm64-v0.8.33+commit.64118f21"),
    ("0.8.32", "solc-linux-arm64-v0.8.32+commit.ebbd65e5"),
    ("0.8.31", "solc-linux-arm64-v0.8.31+commit.fd3a2265") ]

/-- Defining the property `k` of an object: an existing property of that
name has its value replaced in place, otherwise the property is appended. -/
def setProperty : JSObject → String → String → JSObject
  | [], k, v => [(k, v)]
  | (k', v') :: rest, k, v =>
    if k' = k then (k', v) :: rest else (k', v') :: setProperty rest k v

/-- Evaluation of an object literal: the entries are defined one after the
other, from left to right, on an object that starts empty. -/
def evalObjectLiteral (entries : List (String × String)) : JSObject :=
  entries.foldl (fun o e => setProperty o e.1 e.2) []

/-- The object bound to `soljsonReleases`. -/
def soljsonReleases : JSObject :=
  evalObjectLiteral soljsonReleasesLiteral

/-- The own property names of an object, in order. -/
def keys (o : JSObject) : List String :=
  o.map Prod.fst

/-- Reading the own property `k` of an object: `none` stands for a
property that the object does not have. -/
def getProperty : JSObject → String → Option String
  | [], _ => none
  | (k', v') :: rest, k => if k' = k then some v' else getProperty rest k

/-! ## The export -/

/-- The values stored in the fields of the exported object. -/
inductive Value where
  | array (elements : List String)
  | object (properties : JSObject)
  deriving DecidableEq, Repr

/-- The statement `if (typeof(module) !== 'undefined') module.exports = ...`
(lines 13 to 17 of `list.js`): given the string that `typeof(module)`
evaluates to, the object assigned to `module.exports`, as the list of its
fields in the order written, or `none` when the assignment is skipped. -/
def moduleExports (typeofModule : String) : Option (List (String × Value)) :=
  if typeofModule ≠ "undefined" then
    some [ ("allVersions", Value.array soljsonSources),
           ("releases", Value.object soljsonReleases) ]
  else
    none

/-! ## Reading an identifier -/

/-- The identifier prefix that names the platform. -/
def platformPrefix : List Char := "solc-linux-arm64-v".toList

/-- The separator between the version and the commit hash. -/
def commitMarker : List Char := "+commit.".toList

/-- A decimal digit. -/
def isDecimalDigit (c : Char) : Bool :=
  decide ('0'.toNat ≤ c.toNat) && decide (c.toNat ≤ '9'.toNat)

/-- A lowercase hexadecimal character. -/
def isLowerHex (c : Char) : Bool :=
  isDecimalDigit c || (decide ('a'.toNat ≤ c.toNat) && decide (c.toNat ≤ 'f'.toNat))

/-- A decimal number as written: one digit or more. -/
def isDecimalNumber (cs : List Char) : Bool :=
  !cs.isEmpty && cs.all isDecimalDigit

/-- The characters that follow the first occurrence of `-v`. -/
def afterDashV : List Char → Option (List Char)
  | [] => none
  | c :: rest =>
    match c, rest with
    | '-', 'v' :: tail => some tail
    | _, _ => afterDashV rest

/-- The longest run of decimal digits at the front, read as a number
(given the value of the digits read so far), and what follows it. -/
def readDigits : Nat → List Char → Nat × List Char
  | acc, [] => (acc, [])
  | acc, c :: rest =>
    if isDecimalDigit c then readDigits (acc * 10 + (c.toNat - '0'.toNat)) rest
    else (acc, c :: rest)

/-- A decimal number at the front of the input and what follows it;
`none` when the input does not start with a digit. -/
def readNumber : List Char → Option (Nat × List Char)
  | [] => none
  | c :: rest => if isDecimalDigit c then some (readDigits 0 (c :: rest)) else none

/-- The version of an identifier: the `major.minor.patch` triple written
after `-v`, each component read as a natural number. -/
def versionOf (s : String) : Option (Nat × Nat × Nat) :=
  match afterDashV s.toList with
  | none => none
  | some t =>
    match readNumber t with
    | some (major, '.' :: t1) =>
      match readNumber t1 with
      | some (minor, '.' :: t2) =>
        match readNumber t2 with
        | some (patch, _) => some (major, minor, patch)
        | none => none
      | _ => none
    | _ => none

/-- Strict lexicographic order on version triples, component by component
as numbers. -/
def versionLt (a b : Nat × Nat × Nat) : Bool :=
  decide (a.1 < b.1) ||
  (decide (a.1 = b.1) &&
    (decide (a.2.1 < b.2.1) || (decide (a.2.1 = b.2.1) && decide (a.2.2 < b.2.2))))

/-! ## Supporting lemmas on objects -/

theorem keys_setProperty_of_not_mem (o : JSObject) (k v : String) (h : k ∉ keys o) :
    setProperty o k v = o ++ [(k, v)] := by
  induction o with
  | nil => rfl
  | cons e rest ih =>
    obtain ⟨k', v'⟩ := e
    have hne : k' ≠ k := fun hk => h (by simp [keys, hk])
    have hrest : k ∉ keys rest := fun hk => h (by
      simp only [keys, List.map_cons, List.mem_cons]
      exact Or.inr hk)
    simp [setProperty, hne, ih hrest]

theorem foldl_setProperty_of_nodup (entries : List (String × String)) (acc : JSObject)
    (h : (keys (acc ++ entries)).Nodup) :
    entries.foldl (fun o e => setProperty o e.1 e.2) acc = acc ++ entries := by
  induction entries generalizing acc with
  | nil => simp
  | cons e rest ih =>
    have hnot : e.1 ∉ keys acc := by
      intro hmem
      simp only [keys, List.map_append, List.map_cons] at h
      have := (List.nodup_append.1 h).2.2
      exact this hmem (by simp)
    have hstep : setProperty acc e.1 e.2 = acc ++ [e] := by
      rw [keys_setProperty_of_not_mem acc e.1 e.2 hnot]
    simp only [List.foldl_cons, hstep]
    rw [ih (acc ++ [e]) (by simpa using h)]
    simp

/-- An object literal whose keys are pairwise distinct evaluates to the
object that holds its entries unchanged, in the order written. -/
theorem evalObjectLiteral_of_nodup (entries : List (String × String))
    (h : (entries.map Prod.fst).Nodup) : evalObjectLiteral entries = entries := by
  have := foldl_setProperty_of_nodup entries [] (by simpa [keys] using h)
  simpa [evalObjectLiteral] using this

theorem getProperty_eq_none_iff (o : JSObject) (k : String) :
    getProperty o k = none ↔ k ∉ keys o := by
  induction o with
  | nil => simp [getProperty, keys]
  | cons e rest ih =>
    obtain ⟨k', v'⟩ := e
    by_cases hk : k' = k
    · simp [getProperty, keys, hk]
    · have hk2 : ¬ k = k' := fun h => hk h.symm
      simp [getProperty, hk, hk2, ih, keys]

theorem mem_of_getProperty_eq_some (o : JSObject) (k v : String)
    (h : getProperty o k = some v) : (k, v) ∈ o := by
  induction o with
  | nil => simp [getProperty] at h
  | cons e rest ih =>
    obtain ⟨k', v'⟩ := e
    by_cases hk : k' = k
    · simp [getProperty, hk] at h
      simp [hk, h]
    · simp [getProperty, hk] at h
      exact List.mem_cons_of_mem _ (ih h)

theorem exists_value_mem_sources (k : String) (hk : k ∈ keys soljsonReleases) :
    ∃ v, getProperty soljsonReleases k = some v ∧ v ∈ soljsonSources := by
  have h : ∀ k ∈ keys soljsonReleases,
      ∃ v ∈ soljsonSources, getProperty soljsonReleases k = some v := by decide
  obtain ⟨v, hv, hget⟩ := h k hk
  exact ⟨v, hget, hv⟩

/-! ## The claims -/

/-- C1: for every key `k` of the release mapping, the value stored under
`k` is an element of the sequence `soljsonSources`. -/
theorem releases_values_mem_sources (k : String) (hk : k ∈ keys soljsonReleases) :
    ∃ v, getProperty soljsonReleases k = some v ∧ v ∈ soljsonSources :=
  exists_value_mem_sources k hk

theorem releases_values_mem_sources_witness :
    "0.8.32" ∈ keys soljsonReleases ∧
      ∃ v, getProperty soljsonReleases "0.8.32" = some v ∧ v ∈ soljsonSources :=
  ⟨by decide, releases_values_mem_sources "0.8.32" (by decide)⟩

/-- C2: the sequence `soljsonSources` has no duplicate entries: two indices
within its bounds that hold the same string are the same index. -/
theorem sources_no_duplicates (i j : Nat) (hi : i < soljsonSources.length)
    (hj : j < soljsonSources.length) (h : soljsonSources[i] = soljsonSources[j]) :
    i = j := by
  have hnodup : soljsonSources.Nodup := by decide
  exact hnodup.getElem_inj_iff.1 h

theorem sources_no_duplicates_witness :
    ∃ (hi : 1 < soljsonSources.length), soljsonSources[1] = soljsonSources[1] ∧ 1 = 1 :=
  ⟨by decide, rfl, sources_no_duplicates 1 1 (by decide) (by decide) rfl⟩

/-- C3: the key "0.8.33" of the release mapping yields
"solc-linux-arm64-v0.8.33+commit.64118f21", and that string is the element
at index 0 of `soljsonSources`. -/
theorem release_0_8_33 :
    getProperty soljsonReleases "0.8.33" = some "solc-linux-arm64-v0.8.33+commit.64118f21" ∧
      soljsonSources[0]? = some "solc-linux-arm64-v0.8.33+commit.64118f21" := by
  decide

/-- C4: the sequence `soljsonSources` is ordered newest first: for indices
`i < j` both identifiers carry a version after `-v`, and the version at `i`
is strictly greater than the version at `j` in the numeric lexicographic
order of the triples. -/
theorem sources_newest_first (i j : Nat) (hij : i < j) (hj : j < soljsonSources.length) :
    ∃ vi vj, versionOf soljsonSources[i] = some vi ∧
      versionOf soljsonSources[j] = some vj ∧ versionLt vj vi = true := by
  have h : ∀ a : Fin 3, ∀ b : Fin 3, a < b →
      ∃ vi ∈ [(0, 8, 33), (0, 8, 32), (0, 8, 31)], ∃ vj ∈ [(0, 8, 33), (0, 8, 32), (0, 8, 31)],
        (soljsonSources[a.val]?).bind versionOf = some vi ∧
        (soljsonSources[b.val]?).bind versionOf = some vj ∧ versionLt vj vi = true := by
    decide
  have hj3 : j < 3 := hj
  have hi : i < soljsonSources.length := Nat.lt_trans hij hj
  obtain ⟨vi, _, vj, _, h1, h2, h3⟩ :=
    h ⟨i, by omega⟩ ⟨j, hj3⟩ (by simpa using hij)
  refine ⟨vi, vj, ?_, ?_, h3⟩
  · simpa [List.getElem?_eq_getElem hi] using h1
  · simpa [List.getElem?_eq_getElem hj] using h2

theorem sources_newest_first_witness :
    ∃ vi vj, versionOf (soljsonSources.get ⟨0, by decide⟩) = some vi ∧
      versionOf (soljsonSources.get ⟨2, by decide⟩) = some vj ∧ versionLt vj vi = true :=
  sources_newest_first 0 2 (by decide) (by decide)

/-- C5: the version keys written in the `soljsonReleases` literal are
pairwise distinct, so evaluating the literal overwrites no entry and the
lookup of each written key returns the identifier written next to it. -/
theorem releases_literal_keys_unique :
    (soljsonReleasesLiteral.map Prod.fst).Nodup ∧
      soljsonReleases = soljsonReleasesLiteral ∧
      ∀ e ∈ soljsonReleasesLiteral, getProperty soljsonReleases e.1 = some e.2 := by
  decide

theorem releases_literal_keys_unique_witness :
    getProperty soljsonReleases "0.8.31" = some "solc-linux-arm64-v0.8.31+commit.fd3a2265" :=
  releases_literal_keys_unique.2.2
    ("0.8.31", "solc-linux-arm64-v0.8.31+commit.fd3a2265") (by decide)

/-- C6: whenever the export takes place, the exported object has exactly
the two fields `allVersions` and `releases`, in that order; `allVersions`
holds the sequence `soljsonSources` and `releases` holds the mapping
`soljsonReleases`, both unchanged. -/
theorem moduleExports_fields (typeofModule : String) (h : typeofModule ≠ "undefined") :
    moduleExports typeofModule =
      some [ ("allVersions", Value.array soljsonSources),
             ("releases", Value.object soljsonReleases) ] ∧
    moduleExports typeofModule =
      some [ ("allVersions", Value.array
               [ "solc-linux-arm64-v0.8.33+commit.64118f21",
                 "solc-linux-arm64-v0.8.32+commit.ebbd65e5",
                 "solc-linux-arm64-v0.8.31+commit.fd3a2265" ]),
             ("releases", Value.object
               [ ("0.8.33", "solc-linux-arm64-v0.8.33+commit.64118f21"),
                 ("0.8.32", "solc-linux-arm64-v0.8.32+commit.ebbd65e5"),
                 ("0.8.31", "solc-linux-arm64-v0.8.31+commit.fd3a2265") ]) ] := by
  have hrel : soljsonReleases =
      [ ("0.8.33", "solc-linux-arm64-v0.8.33+commit.64118f21"),
        ("0.8.32", "solc-linux-arm64-v0.8.32+commit.ebbd65e5"),
        ("0.8.31", "solc-linux-arm64-v0.8.31+commit.fd3a2265") ] := by decide
  have hexp : moduleExports typeofModule =
      some [ ("allVersions", Value.array soljsonSources),
             ("releases", Value.object soljsonReleases) ] := by
    unfold moduleExports
    rw [if_pos h]
  refine ⟨hexp, ?_⟩
  rw [hexp, hrel]
  rfl

theorem moduleExports_fields_witness :
    "object" ≠ "undefined" ∧
      moduleExports "object" =
        some [ ("allVersions", Value.array soljsonSources),
               ("releases", Value.object soljsonReleases) ] :=
  ⟨by decide, (moduleExports_fields "object" (by decide)).1⟩

/-- C7: every identifier of `soljsonSources` is `solc-linux-arm64-v`,
then three decimal numbers separated by dots, then `+commit.`, then exactly
8 lowercase hexadecimal characters. -/
theorem sources_identifier_format (s : String) (hs : s ∈ soljsonSources) :
    ∃ major minor patch hash : List Char,
      s.toList = platformPrefix ++ major ++ '.' :: minor ++ '.' :: patch ++ commitMarker ++ hash ∧
      isDecimalNumber major = true ∧ isDecimalNumber minor = true ∧
      isDecimalNumber patch = true ∧
      hash.length = 8 ∧ hash.all isLowerHex = true := by
  simp only [soljsonSources, List.mem_cons, List.mem_singleton, List.not_mem_nil, or_false] at hs
  rcases hs with rfl | rfl | rfl
  · exact ⟨['0'], ['8'], ['3', '3'], "64118f21".toList, by decide⟩
  · exact ⟨['0'], ['8'], ['3', '2'], "ebbd65e5".toList, by decide⟩
  · exact ⟨['0'], ['8'], ['3', '1'], "fd3a2265".toList, by decide⟩

theorem sources_identifier_format_witness :
    ∃ major minor patch hash : List Char,
      "solc-linux-arm64-v0.8.32+commit.ebbd65e5".toList =
        platformPrefix ++ major ++ '.' :: minor ++ '.' :: patch ++ commitMarker ++ hash ∧
      isDecimalNumber major = true ∧ isDecimalNumber minor = true ∧
      isDecimalNumber patch = true ∧
      hash.length = 8 ∧ hash.all isLowerHex = true :=
  sources_identifier_format "solc-linux-arm64-v0.8.32+commit.ebbd65e5" (by decide)

/-- C8: for every key `k` of the release mapping, the value stored under
`k` begins with `solc-linux-arm64-v`, then `k`, then `+commit.`. -/
theorem releases_value_matches_key (k : String) (hk : k ∈ keys soljsonReleases) :
    ∃ v, getProperty soljsonReleases k = some v ∧
      (platformPrefix ++ k.toList ++ commitMarker) <+: v.toList := by
  have h : ∀ k ∈ keys soljsonReleases, ∀ v ∈ soljsonSources,
      getProperty soljsonReleases k = some v →
        (platformPrefix ++ k.toList ++ commitMarker).isPrefixOf v.toList = true := by
    decide
  obtain ⟨v, hget, hv⟩ := exists_value_mem_sources k hk
  exact ⟨v, hget, List.isPrefixOf_iff_prefix.1 (h k hk v hv hget)⟩

theorem releases_value_matches_key_witness :
    ∃ v, getProperty soljsonReleases "0.8.33" = some v ∧
      (platformPrefix ++ "0.8.33".toList ++ commitMarker) <+: v.toList :=
  releases_value_matches_key "0.8.33" (by decide)

/-- C9: the release mapping is a bijection between its keys and the
elements of `soljsonSources`: every key has a value in the sequence,
distinct keys have distinct values, and every element of the sequence is
the value of some key. -/
theorem releases_bijection :
    (∀ k ∈ keys soljsonReleases, ∃ s ∈ soljsonSources, getProperty soljsonReleases k = some s) ∧
    (∀ k₁ ∈ keys soljsonReleases, ∀ k₂ ∈ keys soljsonReleases,
      getProperty soljsonReleases k₁ = getProperty soljsonReleases k₂ → k₁ = k₂) ∧
    (∀ s ∈ soljsonSources, ∃ k ∈ keys soljsonReleases, getProperty soljsonReleases k = some s) := by
  decide

theorem releases_bijection_witness :
    ∃ k ∈ keys soljsonReleases,
      getProperty soljsonReleases k = some "solc-linux-arm64-v0.8.31+commit.fd3a2265" :=
  releases_bijection.2.2 "solc-linux-arm64-v0.8.31+commit.fd3a2265" (by decide)

/-- C10: the release mapping has exactly the keys "0.8.33", "0.8.32" and
"0.8.31"; the lookup of any other string, such as "0.8.30", "v0.8.33" or
"0.8.33+commit.64118f21", finds no entry; and `soljsonSources` has length 3. -/
theorem releases_exact_keys :
    keys soljsonReleases = ["0.8.33", "0.8.32", "0.8.31"] ∧
    (∀ k : String, k ∉ ["0.8.33", "0.8.32", "0.8.31"] → getProperty soljsonReleases k = none) ∧
    (∀ k : String, getProperty soljsonReleases k ≠ none → k ∈ ["0.8.33", "0.8.32", "0.8.31"]) ∧
    getProperty soljsonReleases "0.8.30" = none ∧
    getProperty soljsonReleases "v0.8.33" = none ∧
    getProperty soljsonReleases "0.8.33+commit.64118f21" = none ∧
    soljsonSources.length = 3 := by
  have hkeys : keys soljsonReleases = ["0.8.33", "0.8.32", "0.8.31"] := by decide
  refine ⟨hkeys, ?_, ?_, by decide, by decide, by decide, rfl⟩
  · intro k hk
    exact (getProperty_eq_none_iff soljsonReleases k).2 (hkeys ▸ hk)
  · intro k hk
    by_contra hmem
    exact hk ((getProperty_eq_none_iff soljsonReleases k).2 (hkeys ▸ hmem))

theorem releases_exact_keys_witness :
    getProperty soljsonReleases "0.8.3" = none :=
  releases_exact_keys.2.1 "0.8.3" (by decide)

end SolcBin
